import Mathlib

/-!
# Verification of the `launch` submission tool against its specification

This development shallowly embeds the parts of the `launch` repository that the
specification's testable properties talk about:

* `container_image_name/src/lib.rs` — the container image name parser
  (`Indices::from_str` over the anchored regex), its accessors and `ImageName`;
* `launch/src/bash_escape.rs` — the shell-safe quoter `quote_join`;
* `launch/src/kubectl/pod_status.rs` and `launch/src/executor/common.rs` /
  `launch/src/execution/common.rs` — the pod lifecycle waiter;
* `launch/src/executor/ray.rs` and `launch/src/execution/ray.rs` — the two
  generations of the distributed (ray) executor;
* `launch/src/kubectl/name.rs` — the RFC 1035 label sanitizer;
* `launch/src/unit/bytes.rs` — `div_round` and `Bytes`;
* `launch/src/executor.rs` — `ExecutionArgs::annotations`;
* `src/user_host.rs` — `UserHost` parsing and display.

Rust strings are modelled as `List Char` where the code works on characters and
as `List Nat` (byte values) where the code works on bytes.  Machine integers
are modelled as `Nat` with explicit `% 2 ^ 64` where the source uses wrapping
arithmetic.
-/

namespace Launch

/-! ## Bytes and `div_round` (launch/src/unit/bytes.rs) -/

/-- The modulus of the `u64` type. -/
def u64Mod : Nat := 2 ^ 64

/-- `div_round` from `launch/src/unit/bytes.rs`: `(a / b).wrapping_add((a % b >= b / 2 + b % 2) as _)`.
The wrapping add is modelled by an explicit `% 2 ^ 64`.  `b` is a `NonZeroU64`;
we take it as a `Nat` and the theorems assume `1 ≤ b`. -/
def div_round (a b : Nat) : Nat :=
  (a / b + (if b / 2 + b % 2 ≤ a % b then 1 else 0)) % u64Mod

/-- Unit bases from the `unit!` invocations in `launch/src/unit/bytes.rs`. -/
def byteBase : Nat := 1

def kilobyteBase : Nat := 1000

def megabyteBase : Nat := 1000 * 1000

def gigabyteBase : Nat := 1000 * 1000 * 1000

def kibibyteBase : Nat := 1024

def mebibyteBase : Nat := 1024 * 1024

def gibibyteBase : Nat := 1024 * 1024 * 1024

/-- `Bytes::new::<U>(value)`: `U::BASE.get().checked_mul(value)`; `checked_mul`
returns `None` on `u64` overflow. -/
def Bytes.new (base value : Nat) : Option Nat :=
  if base * value < u64Mod then some (base * value) else none

/-- `Bytes::get::<U>(self)`: `div_round(self.0, U::BASE)`. -/
def Bytes.get (self base : Nat) : Nat := div_round self base

/-! ## `UserHost` (src/user_host.rs) -/

/-- The parsed object representation of `"{user}@{host}"` where `@{host}` is
optional (`UserHostRef` / `UserHost` from `src/user_host.rs`).  Strings are
modelled as `List Char`. -/
structure UserHost where
  user : List Char
  host : Option (List Char)
deriving DecidableEq, Repr

/-- `str::split_once(c)`: splits at the first occurrence of `c`, returning the
parts before and after it, or `none` when `c` does not occur. -/
def splitOnce (c : Char) : List Char → Option (List Char × List Char)
  | [] => none
  | x :: rest =>
    if x = c then some ([], rest)
    else (splitOnce c rest).map (fun p => (x :: p.1, p.2))

/-- `UserHostRef::parse`: `value.split_once('@')`, the part before the first
`'@'` is the user and the part after it the host; no `'@'` means no host. -/
def UserHost.parse (value : List Char) : UserHost :=
  match splitOnce '@' value with
  | some (user, host) => ⟨user, some host⟩
  | none => ⟨value, none⟩

/-- `impl Display for UserHostRef`: `"{user}@{host}"` when the host is present
and `"{user}"` otherwise. -/
def UserHost.display (self : UserHost) : List Char :=
  match self.host with
  | some host => self.user ++ '@' :: host
  | none => self.user

/-! ## RFC 1035 label sanitizer (launch/src/kubectl/name.rs)

Byte slices `&[u8]` are modelled as `List Nat` of byte values. -/

/-- `u8::is_ascii_lowercase`. -/
def isAsciiLowercase (b : Nat) : Bool := 97 ≤ b && b ≤ 122

/-- `is_ascii_lowercase_numeric` from `launch/src/kubectl/name.rs`. -/
def is_ascii_lowercase_numeric (b : Nat) : Bool :=
  isAsciiLowercase b || (48 ≤ b && b ≤ 57)

/-- `is_ascii_lowercase_numeric_or_dash` from `launch/src/kubectl/name.rs`. -/
def is_ascii_lowercase_numeric_or_dash (b : Nat) : Bool :=
  is_ascii_lowercase_numeric b || b = 45

/-- Helper for `is_rfc_1035_label`: the source checks
`value[1..len-1]` all in `[-a-z0-9]` and `value[len-1]` in `[a-z0-9]`; here the
same condition is expressed structurally on the tail of the list. -/
def labelTail : List Nat → Bool
  | [] => true
  | [c] => is_ascii_lowercase_numeric c
  | c :: rest => is_ascii_lowercase_numeric_or_dash c && labelTail rest

/-- `is_rfc_1035_label` from `launch/src/kubectl/name.rs`: matches the regex
`^[a-z]([-a-z0-9]*[a-z0-9])?$` (first byte lowercase alphabetic, middle bytes
in `[-a-z0-9]`, last byte in `[a-z0-9]`). -/
def is_rfc_1035_label : List Nat → Bool
  | [] => false
  | [b] => isAsciiLowercase b
  | b :: rest => isAsciiLowercase b && labelTail rest

/-- First index whose byte satisfies `p`
(`input.iter().enumerate().find_map(...)`). -/
def findFirstIdx (p : Nat → Bool) : List Nat → Option Nat
  | [] => none
  | b :: rest =>
    if p b then some 0 else (findFirstIdx p rest).map (· + 1)

/-- Last index at or after `start1` whose byte satisfies `p`
(`input.iter().enumerate().skip(start1).rev().find_map(...)`), expressed by a
first-index search on the reversed tail. -/
def findLastIdxFrom (p : Nat → Bool) (input : List Nat) (start1 : Nat) : Option Nat :=
  let tail := input.drop start1
  (findFirstIdx p tail.reverse).map (fun j => start1 + (tail.length - 1 - j))

/-- The copy loop of `to_rfc_1035_label_lossy` over `input[start+1..end-1]`:
bytes in `[-a-z0-9]` are pushed verbatim, other bytes are replaced by `'-'`
(byte 45) when `can_append_dash` holds and dropped otherwise;
`can_append_dash` is set to whether the pushed byte differs from `'-'`. -/
def sanitizeMiddle : List Nat → Bool → List Nat
  | [], _ => []
  | b :: rest, canDash =>
    if is_ascii_lowercase_numeric_or_dash b then
      b :: sanitizeMiddle rest (decide (b ≠ 45))
    else if canDash then
      45 :: sanitizeMiddle rest false
    else
      sanitizeMiddle rest canDash

/-- The (exclusive) end offset `end` of `to_rfc_1035_label_lossy`: one past the
last lowercase alphanumeric byte at or after `start + 1`, defaulting to
`start`. -/
def labelEnd (input : List Nat) (start : Nat) : Nat :=
  ((findLastIdxFrom is_ascii_lowercase_numeric input (start + 1)).getD start) + 1

/-- `to_rfc_1035_label_lossy` from `launch/src/kubectl/name.rs`:
find the first lowercase alphabetic byte (`start`), the end offset `labelEnd`,
slice `input[start..end]`; return it if it is already a label, otherwise copy
it mapping the middle bytes through `sanitizeMiddle`. -/
def to_rfc_1035_label_lossy (input : List Nat) : Option (List Nat) :=
  match findFirstIdx isAsciiLowercase input with
  | none => none
  | some start =>
    if is_rfc_1035_label ((input.drop start).take (labelEnd input start - start)) then
      some ((input.drop start).take (labelEnd input start - start))
    else
      some ((input.getD start 0) ::
        (sanitizeMiddle
          ((input.drop (start + 1)).take (labelEnd input start - 1 - (start + 1))) true ++
          [input.getD (labelEnd input start - 1) 0]))

/-! ## Shell-safe quoter (launch/src/bash_escape.rs)

Rust `&str` arguments are processed byte-wise (`arg.bytes()`); we model them as
`List Nat` of byte values. -/

/-- `Kind` from `launch/src/bash_escape.rs`. -/
inductive Kind where
  | Bell
  | Backspace
  | Escape
  | FormFeed
  | NewLine
  | CarriageReturn
  | HorizontalTab
  | VerticalTab
  | Backslash
  | SingleQuote
  | EscapeX
  | VerbatimAsciiInert
  | VerbatimAscii
  | VerbatimUtf8
deriving DecidableEq, Repr

/-- `kind(b)` from `launch/src/bash_escape.rs`.  The match arms are translated
in order; the catch-all `0x80..` arm becomes the final `else`. -/
def kind (b : Nat) : Kind :=
  if b = 0x07 then .Bell
  else if b = 0x08 then .Backspace
  else if b = 0x09 then .HorizontalTab
  else if b = 0x1b then .Escape
  else if b = 0x0c then .FormFeed
  else if b = 0x0a then .NewLine
  else if b = 0x0d then .CarriageReturn
  else if b = 0x0b then .VerticalTab
  else if b = 0x5c then .Backslash
  else if b = 0x27 then .SingleQuote
  -- ASCII printable letters, numbers, and "safe" punctuation:
  -- a-z | A-Z | 0-9 | ',' | '.' | '/' | '_' | '-'
  else if (97 ≤ b ∧ b ≤ 122) ∨ (65 ≤ b ∧ b ≤ 90) ∨ (48 ≤ b ∧ b ≤ 57)
      ∨ b = 44 ∨ b = 46 ∨ b = 47 ∨ b = 95 ∨ b = 45 then .VerbatimAsciiInert
  -- ASCII punctuation which can have significance in the shell:
  -- | & ; ( ) < > space ? [ ] { } backtick ~ ! $ @ + = * % # : ^ "
  else if b = 124 ∨ b = 38 ∨ b = 59 ∨ b = 40 ∨ b = 41 ∨ b = 60 ∨ b = 62
      ∨ b = 32 ∨ b = 63 ∨ b = 91 ∨ b = 93 ∨ b = 123 ∨ b = 125 ∨ b = 96
      ∨ b = 126 ∨ b = 33 ∨ b = 36 ∨ b = 64 ∨ b = 43 ∨ b = 61 ∨ b = 42
      ∨ b = 37 ∨ b = 35 ∨ b = 58 ∨ b = 94 ∨ b = 34 then .VerbatimAscii
  -- ASCII control characters and delete: 0x00-0x06 | 0x0e-0x1a | 0x1c-0x1f | 0x7f
  else if b ≤ 0x06 ∨ (0x0e ≤ b ∧ b ≤ 0x1a) ∨ (0x1c ≤ b ∧ b ≤ 0x1f) ∨ b = 0x7f
      then .EscapeX
  -- ASCII extended characters, or high bytes: 0x80..
  else .VerbatimUtf8

/-- `Kind::is_inert`. -/
def Kind.is_inert : Kind → Bool
  | .VerbatimAsciiInert => true
  | _ => false

/-- `Kind::escaped_len`. -/
def Kind.escaped_len : Kind → Nat
  | .EscapeX => 4
  | .VerbatimAsciiInert | .VerbatimAscii | .VerbatimUtf8 => 1
  | _ => 2

/-- `hex_half(b)`: the uppercase hexadecimal digit of `b & 15`
(`b'0' + h` for `0..=9`, `b'A' + (h - 10)` for `10..=15`). -/
def hex_half (b : Nat) : Nat :=
  let h := b % 16
  if h ≤ 9 then 48 + h else 65 + (h - 10)

/-- `encode_x(b)`: the `\xHH` escape `[b'\\', b'x', hex_half(b >> 4), hex_half(b)]`. -/
def encode_x (b : Nat) : List Nat :=
  [92, 120, hex_half (b / 16), hex_half b]

/-- The bytes appended for one input byte inside `encode_ansi_c`'s loop: the
`Push2`/`Push4` escapes per `kind`, and the byte itself for the verbatim kinds
(the source batches consecutive verbatim bytes into runs, which appends the
same bytes). -/
def ansiCByte (b : Nat) : List Nat :=
  match kind b with
  | .Bell => [92, 97]            -- \a
  | .Backspace => [92, 98]       -- \b
  | .Escape => [92, 101]         -- \e
  | .FormFeed => [92, 102]       -- \f
  | .NewLine => [92, 110]        -- \n
  | .CarriageReturn => [92, 114] -- \r
  | .HorizontalTab => [92, 116]  -- \t
  | .VerticalTab => [92, 118]    -- \v
  | .EscapeX => encode_x b
  | .Backslash => [92, 92]       -- \\
  | .SingleQuote => [92, 39]     -- \'
  | .VerbatimAsciiInert | .VerbatimAscii | .VerbatimUtf8 => [b]

/-- `encode_ansi_c`: `$'` then the per-byte encoding then `'`. -/
def encode_ansi_c (arg : List Nat) : List Nat :=
  36 :: 39 :: arg.flatMap ansiCByte ++ [39]

/-- The `Encoding` choice computed by `arg_encoding_info`: `Empty` for the empty
string, `Verbatim` when every byte's kind `is_inert`, and `AnsiC` otherwise. -/
def argIsAllInert (arg : List Nat) : Bool := arg.all (fun b => (kind b).is_inert)

/-- The bytes appended for one argument by `quote_join_one_into` (sans the
separator): `''` for the empty string, the argument itself when every byte is
inert, and the ANSI-C quotation otherwise. -/
def quoteOne (arg : List Nat) : List Nat :=
  if arg = [] then [39, 39]
  else if argIsAllInert arg then arg
  else encode_ansi_c arg

/-- `quote_join_one_into(out, arg)`: appends a space if `out` is non-empty,
then the encoded argument. -/
def quote_join_one_into (out : List Nat) (arg : List Nat) : List Nat :=
  (if out = [] then out else out ++ [32]) ++ quoteOne arg

/-- `quote_join(args)`: folds `quote_join_one_into` over the arguments starting
from the empty string. -/
def quote_join (args : List (List Nat)) : List Nat :=
  args.foldl quote_join_one_into []

/-! ## Pod status (launch/src/kubectl/pod_status.rs) -/

/-- `PodPhase`. -/
inductive PodPhase where
  | Pending
  | Running
  | Succeeded
  | Failed
  | Unknown
deriving DecidableEq, Repr

/-- `ContainerState`; the timestamps, container id, exit code and signal fields
carried by the running/terminated states play no role in the verified
properties and are omitted. -/
inductive ContainerState where
  | Waiting (message : Option String) (reason : Option String)
  | Running
  | Terminated (message : Option String) (reason : Option String)
deriving DecidableEq, Repr

/-- `ContainerStatus`. -/
structure ContainerStatus where
  name : String
  image : String
  state : ContainerState
deriving DecidableEq, Repr

/-- `PodCondition`; the probe/transition timestamps are omitted. -/
structure PodCondition where
  message : Option String
  reason : Option String
  status : String
  type : String
deriving DecidableEq, Repr

/-- `PodStatus`. -/
structure PodStatus where
  conditions : List PodCondition
  container_statuses : List ContainerStatus
  message : Option String
  reason : Option String
  phase : PodPhase
deriving DecidableEq, Repr

/-- `ContainerStatus::cannot_pull_image`: a waiting state whose reason is
`ErrImagePull` or `ImagePullBackOff`. -/
def ContainerStatus.cannot_pull_image (self : ContainerStatus) : Bool :=
  match self.state with
  | .Waiting _ (some reason) => reason = "ErrImagePull" || reason = "ImagePullBackOff"
  | _ => false

/-- `PodStatus::is_unschedulable`: some condition has type `PodScheduled` and
reason `Unschedulable`. -/
def PodStatus.is_unschedulable (self : PodStatus) : Bool :=
  self.conditions.any fun condition =>
    condition.type = "PodScheduled" && condition.reason = some "Unschedulable"

/-- `PodStatus::are_logs_available`. -/
def PodStatus.are_logs_available (self : PodStatus) : Option Bool :=
  if self.is_unschedulable then some false
  else if self.container_statuses.any ContainerStatus.cannot_pull_image then some false
  else
    match self.phase, self.reason with
    | _, some "Unschedulable" => some false
    | .Unknown, _ => some false
    | .Running, some "Started" => some true
    | .Running, _ => none
    | .Succeeded, _ => some true
    | .Failed, _ => some true
    | _, _ => none

/-! ## Lifecycle waiter

Both generations of `wait_for_and_follow_pod_logs` poll the pod status until
`are_logs_available` returns a value or the deadline expires.  The polling loop
is modelled over the finite list of statuses observed at successive polls; an
exhausted list stands for the deadline expiring with no decisive observation. -/

/-- Outcome of `wait_for_and_follow_pod_logs` in `launch/src/executor/common.rs`
(the generation wired into the crate): on an unschedulable pod it warns and
returns `Ok` without streaming; otherwise a decisive status either streams the
logs or fails. -/
inductive ExecutorWaitOutcome where
  | streamedLogs
  | warnedUnschedulable
  | badStatus (status : PodStatus)
  | timeout
deriving DecidableEq, Repr

/-- The polling loop of `wait_for_and_follow_pod_logs` from
`launch/src/executor/common.rs` over the observed statuses. -/
def executorWaitForAndFollowPodLogs : List PodStatus → ExecutorWaitOutcome
  | [] => .timeout
  | status :: rest =>
    match status.are_logs_available with
    | some true => .streamedLogs
    | some false =>
      if status.is_unschedulable then .warnedUnschedulable else .badStatus status
    | none => executorWaitForAndFollowPodLogs rest

/-- `PodLogPollError` from `launch/src/execution/common.rs` (the legacy
generation, which has a dedicated `Unschedulable` variant). -/
inductive PodLogPollError where
  | Unschedulable
  | BadStatus (status : PodStatus)
  | Timeout
deriving DecidableEq, Repr

/-- The polling loop of `wait_for_and_follow_pod_logs` from
`launch/src/execution/common.rs` over the observed statuses. -/
def executionWaitForAndFollowPodLogs : List PodStatus → Except PodLogPollError Unit
  | [] => .error .Timeout
  | status :: rest =>
    match status.are_logs_available with
    | some true => .ok ()
    | some false =>
      if status.is_unschedulable then .error .Unschedulable
      else .error (.BadStatus status)
    | none => executionWaitForAndFollowPodLogs rest

/-! ## The two generations of the ray executor

`RayExecutor::execute` (launch/src/executor/ray.rs, the generation wired into
the crate) propagates the waiter result unchanged and never calls
`delete_job`.  `RayExecutionBackend::execute` (launch/src/execution/ray.rs)
inspects the waiter error and deletes the wrapping job exactly on
`PodLogPollError::Unschedulable`.  Both are modelled by the pair
(does the executor delete the job, result propagated to the caller). -/

/-- Tail of `RayExecutor::execute` after the submitter pod is found: the waiter
runs on the observed statuses and its result is propagated with `?`; no job
deletion happens on any path. -/
def rayExecutorExecuteTail (statuses : List PodStatus) :
    Bool × ExecutorWaitOutcome :=
  (false, executorWaitForAndFollowPodLogs statuses)

/-- Tail of `RayExecutionBackend::execute` after the submitter pod is found:
the waiter result is inspected with `inspect_err`, and on
`PodLogPollError::Unschedulable` the wrapping job is deleted before the error
is propagated. -/
def rayExecutionBackendExecuteTail (statuses : List PodStatus) :
    Bool × Except PodLogPollError Unit :=
  match executionWaitForAndFollowPodLogs statuses with
  | .error .Unschedulable => (true, .error .Unschedulable)
  | r => (false, r)

/-! ## Executor annotations (launch/src/executor.rs)

`ExecutionArgs::annotations` builds a `HashMap` from three distinct keys; it is
modelled as an association list in insertion order, looked up with
`List.lookup`. -/

/-- `kubectl::annotation::VERSION`. -/
def annotationVersion : String := "launch.astera.org/version"

/-- `kubectl::annotation::LAUNCHED_BY_MACHINE_USER`. -/
def annotationLaunchedByMachineUser : String :=
  "launch.astera.org/launched-by-machine-user"

/-- `kubectl::annotation::LAUNCHED_BY_TAILSCALE_USER`. -/
def annotationLaunchedByTailscaleUser : String :=
  "launch.astera.org/launched-by-tailscale-user"

/-- The fields of `ExecutionArgs` that determine the annotations.
`crate::version::VERSION` is an opaque build-time string and is carried as a
field. -/
structure ExecutionArgsAnn where
  version : List Char
  machine_user_host : UserHost
  tailscale_user_host : Option UserHost

/-- `ExecutionArgs::annotations`: the version and machine-user entries, chained
with the tailscale-user entry when `tailscale_user_host` is present. -/
def ExecutionArgsAnn.annotations (self : ExecutionArgsAnn) :
    List (String × List Char) :=
  [(annotationVersion, self.version),
   (annotationLaunchedByMachineUser, self.machine_user_host.display)] ++
  (match self.tailscale_user_host with
   | some value => [(annotationLaunchedByTailscaleUser, value.display)]
   | none => [])

/-- The annotation placement of `job_spec` (launch/src/executor/common.rs):
`args.annotations()` is attached to the job metadata and to the pod template
metadata. -/
structure JobSpecAnn where
  metadata_annotations : List (String × List Char)
  template_annotations : List (String × List Char)
deriving DecidableEq

/-- `job_spec` restricted to its annotation placement. -/
def job_spec (args : ExecutionArgsAnn) : JobSpecAnn :=
  { metadata_annotations := args.annotations
    template_annotations := args.annotations }

/-- The annotation placement of `ray_job_spec` (launch/src/executor/ray.rs):
`args.annotations()` is attached to the ray job metadata and to the head,
worker and submitter pod template metadata. -/
structure RayJobSpecAnn where
  metadata_annotations : List (String × List Char)
  head_template_annotations : List (String × List Char)
  worker_template_annotations : List (String × List Char)
  submitter_template_annotations : List (String × List Char)
deriving DecidableEq

/-- `ray_job_spec` restricted to its annotation placement. -/
def ray_job_spec (args : ExecutionArgsAnn) : RayJobSpecAnn :=
  { metadata_annotations := args.annotations
    head_template_annotations := args.annotations
    worker_template_annotations := args.annotations
    submitter_template_annotations := args.annotations }

/-- The annotation placement of `experiment` (launch/src/executor/katib.rs):
`args.annotations()` is attached to the experiment metadata; the trial spec's
metadata is removed (`trial_spec.metadata = None`) because Katib disallows it. -/
structure ExperimentAnn where
  metadata_annotations : List (String × List Char)
  trial_spec_metadata : Option (List (String × List Char))
deriving DecidableEq

/-- `experiment` restricted to its annotation placement. -/
def experiment (args : ExecutionArgsAnn) : ExperimentAnn :=
  { metadata_annotations := args.annotations
    trial_spec_metadata := none }

/-! ## Container image names (container_image_name/src/lib.rs)

`Indices::from_str` matches the input against one anchored regular expression
and records the start offsets of the capture groups.  The regex is embedded as
a syntax tree and matched by a backtracking engine with leftmost-first
alternation and greedy repetition — the match and capture semantics of the
`regex` crate.  Strings are modelled as `List Char` and offsets count
characters (the source counts bytes; the groups of this pattern are matched
at the same boundaries). -/

/-- Regular expressions: empty, single-character class, concatenation,
leftmost-first alternation, greedy Kleene star and capture group. -/
inductive RE where
  | eps
  | cls (p : Char → Bool)
  | seq (a b : RE)
  | alt (a b : RE)
  | star (a : RE)
  | group (idx : Nat) (a : RE)

/-- Greedy `?`. -/
def RE.opt (a : RE) : RE := .alt a .eps

/-- Greedy `+`. -/
def RE.plus (a : RE) : RE := .seq a (.star a)

/-- A literal character. -/
def RE.chr (c : Char) : RE := .cls (fun x => x = c)

/-- Greedy `{0,n}`. -/
def RE.repAtMost : Nat → RE → RE
  | 0, _ => .eps
  | n + 1, a => .alt (.seq a (RE.repAtMost n a)) .eps

/-- `{n}` (exactly `n` repetitions). -/
def RE.repExact : Nat → RE → RE
  | 0, _ => .eps
  | n + 1, a => .seq a (RE.repExact n a)

/-- Recorded captures: `(group index, start offset, end offset)`, most recent
first. -/
def Captures := List (Nat × Nat × Nat)

/-- The backtracking matcher in continuation-passing style.  `s` is the
remaining input, `pos` the current offset and `caps` the captures recorded on
the current path.  Alternation tries the left branch first and repetition is
greedy; a star iteration must consume input (all starred subpatterns of the
image name regex are non-nullable, so this matches the source semantics).
`fuel` bounds the call depth; `reCaptures` supplies enough fuel for any input. -/
def reRun : Nat → RE → List Char → Nat → Captures →
    (List Char → Nat → Captures → Option Captures) → Option Captures
  | 0, _, _, _, _, _ => none
  | fuel + 1, re, s, pos, caps, k =>
    match re with
    | .eps => k s pos caps
    | .cls p =>
      match s with
      | [] => none
      | c :: rest => if p c then k rest (pos + 1) caps else none
    | .seq a b => reRun fuel a s pos caps (fun s1 p1 c1 => reRun fuel b s1 p1 c1 k)
    | .alt a b =>
      match reRun fuel a s pos caps k with
      | some r => some r
      | none => reRun fuel b s pos caps k
    | .star a =>
      match reRun fuel a s pos caps
          (fun s1 p1 c1 => if pos < p1 then reRun fuel (.star a) s1 p1 c1 k else none) with
      | some r => some r
      | none => k s pos caps
    | .group i a => reRun fuel a s pos caps (fun s1 p1 c1 => k s1 p1 ((i, pos, p1) :: c1))

/-- Anchored match (`^...$`): the whole input must be consumed.  The fuel is an
upper bound on the matcher's call depth for this pattern and input. -/
def reCaptures (re : RE) (s : List Char) : Option Captures :=
  reRun (1000 + 400 * s.length) re s 0 []
    (fun s1 _ c1 => if s1.isEmpty then some c1 else none)

/-- `[a-zA-Z0-9]`. -/
def isDomainChar (c : Char) : Bool :=
  (('a' ≤ c && c ≤ 'z') || ('A' ≤ c && c ≤ 'Z') || ('0' ≤ c && c ≤ '9'))

/-- `[a-zA-Z0-9-]`. -/
def isDomainDashChar (c : Char) : Bool := isDomainChar c || c = '-'

/-- `[0-9]`. -/
def isDigitChar (c : Char) : Bool := '0' ≤ c && c ≤ '9'

/-- `[a-z0-9]`. -/
def isLowerNumChar (c : Char) : Bool :=
  ('a' ≤ c && c ≤ 'z') || ('0' ≤ c && c ≤ '9')

/-- `\w`.  The source regex is Unicode-aware; the model restricts to the ASCII
word characters `[A-Za-z0-9_]`, which covers every image name the tool
produces. -/
def isWordChar (c : Char) : Bool := isDomainChar c || c = '_'

/-- `[\w.-]`. -/
def isTagChar (c : Char) : Bool := isWordChar c || c = '.' || c = '-'

/-- `[A-Za-z]`. -/
def isAlphaChar (c : Char) : Bool := ('a' ≤ c && c ≤ 'z') || ('A' ≤ c && c ≤ 'Z')

/-- `[+.-_]`: in a regex character class `.-_` is the range from `'.'` (0x2E)
to `'_'` (0x5F), so this class is `'+'` together with that range. -/
def isAlgoSepChar (c : Char) : Bool := c = '+' || ('.' ≤ c && c ≤ '_')

/-- `[0-9a-fA-F]`. -/
def isHexChar (c : Char) : Bool :=
  isDigitChar c || ('a' ≤ c && c ≤ 'f') || ('A' ≤ c && c ≤ 'F')

/-- `[a-zA-Z0-9](?:[a-zA-Z0-9-]*[a-zA-Z0-9])?` — one domain component. -/
def domainComponentRE : RE :=
  .seq (.cls isDomainChar)
    (RE.opt (.seq (.star (.cls isDomainDashChar)) (.cls isDomainChar)))

/-- `domain`: `component(?:\.component)+`. -/
def domainRE : RE :=
  .seq domainComponentRE (RE.plus (.seq (RE.chr '.') domainComponentRE))

/-- `[a-z0-9]+(?:[_.]|__|[-]*[a-z0-9]+)*` — one path component. -/
def pathComponentRE : RE :=
  .seq (RE.plus (.cls isLowerNumChar))
    (.star (.alt (.cls (fun c => c = '_' || c = '.'))
      (.alt (.seq (RE.chr '_') (RE.chr '_'))
        (.seq (.star (RE.chr '-')) (RE.plus (.cls isLowerNumChar))))))

/-- `tag`: `[\w][\w.-]{0,127}`. -/
def tagRE : RE := .seq (.cls isWordChar) (RE.repAtMost 127 (.cls isTagChar))

/-- `[A-Za-z][A-Za-z0-9]*` — one digest algorithm component. -/
def algorithmComponentRE : RE :=
  .seq (.cls isAlphaChar) (.star (.cls isDomainChar))

/-- `algorithm`: `component(?:[+.-_]component)*`. -/
def algorithmRE : RE :=
  .seq algorithmComponentRE (.star (.seq (.cls isAlgoSepChar) algorithmComponentRE))

/-- `hex`: `[0-9a-fA-F]{32,}`. -/
def hexRE : RE := .seq (RE.repExact 32 (.cls isHexChar)) (.star (.cls isHexChar))

/-- The full anchored image name regex from `Indices::from_str`, with the
source's capture group numbering: 1 `domain`, 2 `port`, 3 `name`, 4 `tag`,
5 `algorithm`, 6 `hex`. -/
def imageNameRE : RE :=
  .seq
    (RE.opt (.seq
      (.seq (.group 1 domainRE)
        (RE.opt (.seq (RE.chr ':') (.group 2 (RE.plus (.cls isDigitChar))))))
      (RE.chr '/')))
    (.seq (.group 3 pathComponentRE)
      (.seq (.star (.seq (RE.chr '/') pathComponentRE))
        (.seq (RE.opt (.seq (RE.chr ':') (.group 4 tagRE)))
          (RE.opt (.seq (RE.chr '@')
            (.seq (.group 5 algorithmRE)
              (.seq (RE.chr ':') (.group 6 hexRE))))))))

/-- The start offset recorded for capture group `i`
(`captures.get(i).map(|m| m.start())`). -/
def capStart (caps : Captures) (i : Nat) : Option Nat :=
  (caps.find? (fun e => e.1 = i)).map (fun e => e.2.1)

/-- `IndicesRegistry`: `domain_start` is implicitly 0. -/
structure IndicesRegistry where
  port_start : Option Nat
deriving DecidableEq, Repr

/-- `IndicesDigest`. -/
structure IndicesDigest where
  algorithm_start : Nat
  hex_start : Nat
deriving DecidableEq, Repr

/-- `Indices`. -/
structure Indices where
  registry_start : Option IndicesRegistry
  path_start : Nat
  tag_start : Option Nat
  digest_start : Option IndicesDigest
deriving DecidableEq, Repr

/-- `Indices::from_str`: match `IMAGE_NAME_REGEX` and record the group start
offsets.  The source unwraps group 6 whenever group 5 matched; the model
requires both, which on this pattern is the same. -/
def Indices.fromStr (s : List Char) : Option Indices :=
  match reCaptures imageNameRE s with
  | none => none
  | some caps =>
    match capStart caps 3 with
    | none => none
    | some path_start =>
      some
        { registry_start := (capStart caps 1).map (fun _ => ⟨capStart caps 2⟩)
          path_start := path_start
          tag_start := capStart caps 4
          digest_start :=
            match capStart caps 5, capStart caps 6 with
            | some a, some h => some ⟨a, h⟩
            | _, _ => none }

/-- `&buffer[range]`: the slice of `buffer` from `st` (inclusive) to `sp`
(exclusive). -/
def sliceRange (buffer : List Char) (st sp : Nat) : List Char :=
  (buffer.drop st).take (sp - st)

/-- `Indices::domain_range`; the `wrapping_sub` of the one-character prefixes
(`:` and `/`) is modelled by `Nat` subtraction, the offsets being positive in
every `some` case. -/
def Indices.domain_range (self : Indices) : Option (Nat × Nat) :=
  self.registry_start.map fun registry_start =>
    (0, (registry_start.port_start.map (· - 1)).getD (self.path_start - 1))

/-- `Indices::domain`. -/
def Indices.domain (self : Indices) (buffer : List Char) : Option (List Char) :=
  self.domain_range.map fun r => sliceRange buffer r.1 r.2

/-- `Indices::port_range`. -/
def Indices.port_range (self : Indices) : Option (Nat × Nat) :=
  (self.registry_start.bind fun registry_start => registry_start.port_start).map
    fun port_start => (port_start, self.path_start - 1)

/-- `Indices::port`. -/
def Indices.port (self : Indices) (buffer : List Char) : Option (List Char) :=
  self.port_range.map fun r => sliceRange buffer r.1 r.2

/-- `Indices::registry_range`. -/
def Indices.registry_range (self : Indices) : Option (Nat × Nat) :=
  self.registry_start.map fun _ => (0, self.path_start - 1)

/-- `Indices::registry`. -/
def Indices.registry (self : Indices) (buffer : List Char) : Option (List Char) :=
  self.registry_range.map fun r => sliceRange buffer r.1 r.2

/-- `Indices::path_range`. -/
def Indices.path_range (self : Indices) (buffer_len : Nat) : Nat × Nat :=
  (self.path_start,
    ((self.tag_start.map (· - 1)).orElse
      (fun _ => self.digest_start.map (fun x => x.algorithm_start - 1))).getD buffer_len)

/-- `Indices::path`. -/
def Indices.path (self : Indices) (buffer : List Char) : List Char :=
  let r := self.path_range buffer.length
  sliceRange buffer r.1 r.2

/-- `Indices::tag_range`. -/
def Indices.tag_range (self : Indices) (buffer_len : Nat) : Option (Nat × Nat) :=
  self.tag_start.map fun tag_start =>
    (tag_start,
      (self.digest_start.map (fun x => x.algorithm_start - 1)).getD buffer_len)

/-- `Indices::tag`. -/
def Indices.tag (self : Indices) (buffer : List Char) : Option (List Char) :=
  (self.tag_range buffer.length).map fun r => sliceRange buffer r.1 r.2

/-- `Indices::digest_algorithm_range`. -/
def Indices.digest_algorithm_range (self : Indices) : Option (Nat × Nat) :=
  self.digest_start.map fun digest_start =>
    (digest_start.algorithm_start, digest_start.hex_start - 1)

/-- `Indices::digest_algorithm`. -/
def Indices.digest_algorithm (self : Indices) (buffer : List Char) :
    Option (List Char) :=
  self.digest_algorithm_range.map fun r => sliceRange buffer r.1 r.2

/-- `Indices::digest_hex_range`. -/
def Indices.digest_hex_range (self : Indices) (buffer_len : Nat) :
    Option (Nat × Nat) :=
  self.digest_start.map fun digest_start => (digest_start.hex_start, buffer_len)

/-- `Indices::digest_hex`. -/
def Indices.digest_hex (self : Indices) (buffer : List Char) : Option (List Char) :=
  (self.digest_hex_range buffer.length).map fun r => sliceRange buffer r.1 r.2

/-- `Indices::digest_range`. -/
def Indices.digest_range (self : Indices) (buffer_len : Nat) : Option (Nat × Nat) :=
  self.digest_start.map fun digest_start => (digest_start.algorithm_start, buffer_len)

/-- `Indices::digest`. -/
def Indices.digest (self : Indices) (buffer : List Char) : Option (List Char) :=
  (self.digest_range buffer.length).map fun r => sliceRange buffer r.1 r.2

/-- `ImageName`: the owned buffer together with the recorded indices.  Both
`ImageName::new` and `ImageNameRef::new` (and the builder, which re-parses the
buffer it assembled) construct values exclusively through parsing, so the
indices always come from `Indices::from_str` on the buffer. -/
structure ImageName where
  buffer : List Char
  indices : Indices

/-- `ImageName::new` / `ImageNameRef::new`: parse the buffer into indices. -/
def ImageName.new (value : List Char) : Option ImageName :=
  (Indices.fromStr value).map fun indices => ⟨value, indices⟩

/-- `Display`/`Deref`/`as_str` for `ImageName`: the underlying buffer. -/
def ImageName.toStr (self : ImageName) : List Char := self.buffer

/-- Accessor `domain`. -/
def ImageName.domain (self : ImageName) : Option (List Char) :=
  self.indices.domain self.buffer

/-- Accessor `port`. -/
def ImageName.port (self : ImageName) : Option (List Char) :=
  self.indices.port self.buffer

/-- Accessor `registry`. -/
def ImageName.registry (self : ImageName) : Option (List Char) :=
  self.indices.registry self.buffer

/-- Accessor `path`. -/
def ImageName.path (self : ImageName) : List Char :=
  self.indices.path self.buffer

/-- Accessor `tag`. -/
def ImageName.tag (self : ImageName) : Option (List Char) :=
  self.indices.tag self.buffer

/-- Accessor `digest_algorithm`. -/
def ImageName.digest_algorithm (self : ImageName) : Option (List Char) :=
  self.indices.digest_algorithm self.buffer

/-- Accessor `digest_hex`. -/
def ImageName.digest_hex (self : ImageName) : Option (List Char) :=
  self.indices.digest_hex self.buffer

/-- Accessor `digest`. -/
def ImageName.digest (self : ImageName) : Option (List Char) :=
  self.indices.digest self.buffer

/-! ## Spec-side statement of the quoting rules (spec §4.8)

The following definitions transcribe the specification's wording, to be
compared with the `quote_join` embedding above. -/

/-- Spec §4.8: the *inert* ASCII set `{a-z,A-Z,0-9,',','.','/','_','-'}`. -/
def specInertByte (b : Nat) : Bool :=
  decide ((97 ≤ b ∧ b ≤ 122) ∨ (65 ≤ b ∧ b ≤ 90) ∨ (48 ≤ b ∧ b ≤ 57) ∨
    b = 44 ∨ b = 46 ∨ b = 47 ∨ b = 95 ∨ b = 45)

/-- Spec §4.8: an uppercase hexadecimal digit. -/
def specHexDigit (h : Nat) : Nat := if h ≤ 9 then 48 + h else 55 + h

/-- Spec §4.8: the byte-level escapes inside `$'...'`: `BEL→\a`, `BS→\b`,
`TAB→\t`, `ESC→\e`, `FF→\f`, `LF→\n`, `CR→\r`, `VT→\v`, `\→\\`, `'→\'`, the
remaining control bytes and DEL (`0x00-0x06, 0x0e-0x1a, 0x1c-0x1f, 0x7f`) as
`\xHH` with uppercase hex, and every other byte verbatim. -/
def specEscape (b : Nat) : List Nat :=
  if b = 0x07 then [92, 97]
  else if b = 0x08 then [92, 98]
  else if b = 0x09 then [92, 116]
  else if b = 0x1b then [92, 101]
  else if b = 0x0c then [92, 102]
  else if b = 0x0a then [92, 110]
  else if b = 0x0d then [92, 114]
  else if b = 0x0b then [92, 118]
  else if b = 92 then [92, 92]
  else if b = 39 then [92, 39]
  else if b ≤ 0x06 ∨ (0x0e ≤ b ∧ b ≤ 0x1a) ∨ (0x1c ≤ b ∧ b ≤ 0x1f) ∨ b = 0x7f then
    [92, 120, specHexDigit (b / 16 % 16), specHexDigit (b % 16)]
  else [b]

/-- Spec §4.8: the encoding of one token — `''` for the empty token, the token
verbatim when every byte is inert, and the ANSI-C quotation otherwise. -/
def specQuoteToken (t : List Nat) : List Nat :=
  if t = [] then [39, 39]
  else if t.all specInertByte then t
  else [36, 39] ++ t.flatMap specEscape ++ [39]

/-- Spec §4.8: encoded tokens are joined with single spaces. -/
def specJoin : List (List Nat) → List Nat
  | [] => []
  | [t] => specQuoteToken t
  | t :: rest => specQuoteToken t ++ 32 :: specJoin rest

/-! ## Concrete fixtures used by counterexample and witness theorems -/

/-- A pod status with phase `Running` and no reason, no conditions and no
container statuses — the steady state of a healthy running pod as reported
without a status reason. -/
def runningNoReasonStatus : PodStatus :=
  { conditions := []
    container_statuses := []
    message := none
    reason := none
    phase := .Running }

/-- A pod status whose `PodScheduled` condition has reason `Unschedulable`. -/
def unschedulableStatus : PodStatus :=
  { conditions := [{ message := some "0/1 nodes are available"
                     reason := some "Unschedulable"
                     status := "False"
                     type := "PodScheduled" }]
    container_statuses := []
    message := none
    reason := none
    phase := .Pending }

/-- A pod status with phase `Succeeded`. -/
def succeededStatus : PodStatus :=
  { conditions := []
    container_statuses := []
    message := none
    reason := none
    phase := .Succeeded }

/-- The annotation requirements of the spec's executor annotation invariant
for one annotation map: the version and launched-by-machine-user entries are
present with the expected values, and the launched-by-tailscale-user entry is
present exactly when a tailscale principal is. -/
def carriesLaunchAnnotations (args : ExecutionArgsAnn)
    (m : List (String × List Char)) : Prop :=
  m.lookup annotationVersion = some args.version ∧
  m.lookup annotationLaunchedByMachineUser = some args.machine_user_host.display ∧
  ((m.lookup annotationLaunchedByTailscaleUser).isSome ↔
    args.tailscale_user_host.isSome)

/-! # Theorems -/

/-- Helper for C7: `div_round` computes the round-half-up quotient exactly, for
every in-range numerator and positive denominator. -/
theorem div_round_eq_add_half_div (a b : Nat) (ha : a < u64Mod) (hb : 1 ≤ b) :
    div_round a b = (a + b / 2) / b := by
  have hb0 : 0 < b := hb
  have hdm2 : 2 * (b / 2) + b % 2 = b := Nat.div_add_mod b 2
  have hdma : b * (a / b) + a % b = a := Nat.div_add_mod a b
  have hqb : a / b ≤ b * (a / b) := Nat.le_mul_of_pos_left _ hb0
  have hle : a / b + (if b / 2 + b % 2 ≤ a % b then 1 else 0) ≤ a := by
    split
    · omega
    · exact Nat.le_trans (Nat.div_le_self a b) (Nat.le_refl a)
  calc div_round a b
      = a / b + (if b / 2 + b % 2 ≤ a % b then 1 else 0) :=
        Nat.mod_eq_of_lt (Nat.lt_of_le_of_lt hle ha)
    _ = (a + b / 2) / b := by
        rw [Nat.add_div hb0, Nat.div_eq_of_lt (by omega : b / 2 < b),
          Nat.mod_eq_of_lt (by omega : b / 2 < b)]
        by_cases hc : b / 2 + b % 2 ≤ a % b
        · rw [if_pos hc, if_pos (by omega)]
        · rw [if_neg hc, if_neg (by omega)]

/-- **C7**: for every `u64` value `a` and nonzero `b`, `div_round(a, b)` equals
the mathematical `(a + b/2) / b` with truncating division and no wrapping; in
particular `div_round(u64::MAX, 1) = u64::MAX`, and
`Bytes::new::<byte>(700).get::<kilobyte>() == 1`. -/
theorem div_round_spec (a b : Nat) (ha : a < u64Mod) (hb : 1 ≤ b) :
    div_round a b = (a + b / 2) / b ∧
    div_round (u64Mod - 1) 1 = u64Mod - 1 ∧
    (Bytes.new byteBase 700).map (fun x => Bytes.get x kilobyteBase) = some 1 := by
  refine ⟨div_round_eq_add_half_div a b ha hb, ?_, ?_⟩
  · rw [div_round_eq_add_half_div (u64Mod - 1) 1
      (Nat.sub_lt (by norm_num [u64Mod]) Nat.one_pos) (Nat.le_refl 1)]
    simp
  · rfl

/-- Witness for C7 at `a = u64::MAX`, `b = 1`. -/
theorem div_round_spec_witness :
    (u64Mod - 1 < u64Mod ∧ 1 ≤ 1) ∧ div_round (u64Mod - 1) 1 = (u64Mod - 1 + 1 / 2) / 1 :=
  ⟨⟨Nat.sub_lt (by norm_num [u64Mod]) Nat.one_pos, Nat.le_refl 1⟩,
    (div_round_spec (u64Mod - 1) 1 (Nat.sub_lt (by norm_num [u64Mod]) Nat.one_pos)
      (Nat.le_refl 1)).1⟩

/-- Helper for C10: a `none` from `splitOnce` means the character is absent. -/
theorem splitOnce_eq_none {c : Char} {s : List Char}
    (h : splitOnce c s = none) : c ∉ s := by
  induction s with
  | nil => simp
  | cons x rest ih =>
    unfold splitOnce at h
    by_cases hx : x = c
    · simp [hx] at h
    · simp only [if_neg hx, Option.map_eq_none'] at h
      simp [hx, ih h]
      intro hmm
      exact absurd hmm.symm hx

/-- Helper for C10: `splitOnce` splits at the first occurrence. -/
theorem splitOnce_eq_some {c : Char} {s a b : List Char}
    (h : splitOnce c s = some (a, b)) : s = a ++ c :: b ∧ c ∉ a := by
  induction s generalizing a with
  | nil => simp [splitOnce] at h
  | cons x rest ih =>
    unfold splitOnce at h
    by_cases hx : x = c
    · rw [if_pos hx] at h
      obtain ⟨rfl, rfl⟩ : a = [] ∧ b = rest := by
        cases h
        exact ⟨rfl, rfl⟩
      simpa using hx
    · rw [if_neg hx] at h
      obtain ⟨⟨a', b'⟩, hr, heq⟩ := Option.map_eq_some'.mp h
      obtain ⟨rfl, rfl⟩ : a = x :: a' ∧ b = b' := by
        cases heq
        exact ⟨rfl, rfl⟩
      obtain ⟨hs, hna⟩ := ih hr
      refine ⟨by rw [hs]; rfl, ?_⟩
      simp [hna]
      intro hmm
      exact absurd hmm.symm hx

/-- **C10**: `UserHostRef::parse` splits at the first `'@'` (host absent when
there is none) and `Display` formats the result back to the input
byte-for-byte. -/
theorem userHost_parse_display_roundtrip (s : List Char) :
    (UserHost.parse s).display = s ∧
    ((UserHost.parse s).host = none ↔ '@' ∉ s) ∧
    (∀ u h, UserHost.parse s = ⟨u, some h⟩ → s = u ++ '@' :: h ∧ '@' ∉ u) := by
  unfold UserHost.parse
  cases hs : splitOnce '@' s with
  | none =>
    have hni := splitOnce_eq_none hs
    exact ⟨rfl, ⟨fun _ => hni, fun _ => rfl⟩, fun u h hEq => by cases hEq⟩
  | some p =>
    obtain ⟨a, b⟩ := p
    obtain ⟨hsplit, hna⟩ := splitOnce_eq_some hs
    refine ⟨?_, ?_, ?_⟩
    · simpa [UserHost.display] using hsplit.symm
    · constructor
      · intro habs
        cases habs
      · intro hnotin
        exact absurd (by rw [hsplit]; simp) hnotin
    · intro u h hEq
      obtain ⟨rfl, rfl⟩ : a = u ∧ b = h := by
        cases hEq
        exact ⟨rfl, rfl⟩
      exact ⟨hsplit, hna⟩

/-- Witness for C10 at `"alice@example.com"`. -/
theorem userHost_parse_display_roundtrip_witness :
    (UserHost.parse "alice@example.com".data).display = "alice@example.com".data :=
  (userHost_parse_display_roundtrip "alice@example.com".data).1

/-- **C1**: image name round trip.  `Display` returns the parsed string
unchanged, and re-parsing the displayed string yields a value whose accessors
(`domain`, `port`, `registry`, `path`, `tag`, `digest_algorithm`,
`digest_hex`, `digest`) all agree with the original. -/
theorem imageName_roundtrip (s : List Char) (x : ImageName)
    (h : ImageName.new s = some x) :
    x.toStr = s ∧
      ∃ y, ImageName.new x.toStr = some y ∧
        y.domain = x.domain ∧ y.port = x.port ∧ y.registry = x.registry ∧
        y.path = x.path ∧ y.tag = x.tag ∧
        y.digest_algorithm = x.digest_algorithm ∧
        y.digest_hex = x.digest_hex ∧ y.digest = x.digest := by
  unfold ImageName.new at h
  cases hf : Indices.fromStr s with
  | none => rw [hf] at h; cases h
  | some i =>
    rw [hf] at h
    obtain rfl : (⟨s, i⟩ : ImageName) = x := by
      cases h
      rfl
    exact ⟨rfl, ⟨s, i⟩, by simp [ImageName.new, ImageName.toStr, hf],
      rfl, rfl, rfl, rfl, rfl, rfl, rfl, rfl⟩

/-- Witness for C1 at `"reg.io/a:v1"`. -/
theorem imageName_roundtrip_witness :
    ImageName.new "reg.io/a:v1".data =
      some ⟨"reg.io/a:v1".data, ⟨some ⟨none⟩, 7, some 9, none⟩⟩ ∧
    (⟨"reg.io/a:v1".data, ⟨some ⟨none⟩, 7, some 9, none⟩⟩ : ImageName).toStr =
      "reg.io/a:v1".data :=
  ⟨by rfl, (imageName_roundtrip "reg.io/a:v1".data _ (by rfl)).1⟩

/-- **C8**: component exclusivity for parsed image names: a present `port`
forces a present `domain`, and `digest_hex` is present exactly when
`digest_algorithm` is. -/
theorem imageName_component_exclusivity (s : List Char) (x : ImageName)
    (h : ImageName.new s = some x) :
    (x.port.isSome → x.domain.isSome) ∧
    (x.digest_hex.isSome ↔ x.digest_algorithm.isSome) := by
  clear h
  obtain ⟨buf, reg, ps, ts, ds⟩ := x
  constructor
  · cases reg with
    | none =>
      simp [ImageName.port, Indices.port, Indices.port_range]
    | some r =>
      simp [ImageName.domain, Indices.domain, Indices.domain_range]
  · cases ds with
    | none =>
      simp [ImageName.digest_hex, Indices.digest_hex, Indices.digest_hex_range,
        ImageName.digest_algorithm, Indices.digest_algorithm,
        Indices.digest_algorithm_range]
    | some d =>
      simp [ImageName.digest_hex, Indices.digest_hex, Indices.digest_hex_range,
        ImageName.digest_algorithm, Indices.digest_algorithm,
        Indices.digest_algorithm_range]

/-- Witness for C8 at `"reg.io:5000/a@sha256:0123456789abcdef0123456789abcdef"`
(port, domain and digest all present). -/
theorem imageName_component_exclusivity_witness :
    ImageName.new "reg.io:5000/a@sha256:0123456789abcdef0123456789abcdef".data =
      some ⟨"reg.io:5000/a@sha256:0123456789abcdef0123456789abcdef".data,
        ⟨some ⟨some 7⟩, 12, none, some ⟨14, 21⟩⟩⟩ ∧
    ((⟨"reg.io:5000/a@sha256:0123456789abcdef0123456789abcdef".data,
        ⟨some ⟨some 7⟩, 12, none, some ⟨14, 21⟩⟩⟩ : ImageName).port.isSome →
      (⟨"reg.io:5000/a@sha256:0123456789abcdef0123456789abcdef".data,
        ⟨some ⟨some 7⟩, 12, none, some ⟨14, 21⟩⟩⟩ : ImageName).domain.isSome) :=
  ⟨by rfl,
    (imageName_component_exclusivity
      "reg.io:5000/a@sha256:0123456789abcdef0123456789abcdef".data _ (by rfl)).1⟩

/-- **C3** (amended): a status with phase `Succeeded` or `Failed` — or
`Running` with status reason `"Started"` — that is not classified
unschedulable (neither by condition nor by status reason) and has no
image-pull failure makes the waiter decide that logs are available and stream
them instead of polling further; a `Running` status without the `"Started"`
reason keeps polling (see the counterexample). -/
theorem waiter_streams_on_decisive_status (status : PodStatus)
    (rest : List PodStatus)
    (hph : status.phase = .Succeeded ∨ status.phase = .Failed ∨
      (status.phase = .Running ∧ status.reason = some "Started"))
    (hun : status.is_unschedulable = false)
    (hpull : status.container_statuses.any ContainerStatus.cannot_pull_image = false)
    (hreason : status.reason ≠ some "Unschedulable") :
    status.are_logs_available = some true ∧
    executorWaitForAndFollowPodLogs (status :: rest) = .streamedLogs ∧
    executionWaitForAndFollowPodLogs (status :: rest) = .ok () := by
  have hav : status.are_logs_available = some true := by
    unfold PodStatus.are_logs_available
    rw [hun, hpull]
    simp only [Bool.false_eq_true, if_false, List.any_eq_true]
    split
    all_goals try rfl
    all_goals simp_all
  refine ⟨hav, ?_, ?_⟩
  · simp [executorWaitForAndFollowPodLogs, hav]
  · simp [executionWaitForAndFollowPodLogs, hav]

/-- Counterexample for C3: a healthy `Running` pod status with no status
reason satisfies every premise of the claim (phase in the set, not
unschedulable, no pull failure, phase not `Unknown`) yet the waiter does not
decide that logs are available — it keeps polling and, with no further
observations, times out. -/
theorem waiter_running_without_reason_keeps_polling :
    runningNoReasonStatus.phase = .Running ∧
    runningNoReasonStatus.is_unschedulable = false ∧
    runningNoReasonStatus.container_statuses.any ContainerStatus.cannot_pull_image
      = false ∧
    runningNoReasonStatus.are_logs_available = none ∧
    executorWaitForAndFollowPodLogs [runningNoReasonStatus] = .timeout := by
  refine ⟨rfl, rfl, rfl, rfl, rfl⟩

/-- Witness for C3 at a `Succeeded` status. -/
theorem waiter_streams_on_decisive_status_witness :
    succeededStatus.are_logs_available = some true ∧
    executorWaitForAndFollowPodLogs [succeededStatus] = .streamedLogs ∧
    executionWaitForAndFollowPodLogs [succeededStatus] = .ok () :=
  waiter_streams_on_decisive_status succeededStatus [] (Or.inl rfl) rfl rfl
    (by intro h; cases h)

/-- **C4** (amended): only the legacy ray execution backend
(`launch/src/execution/ray.rs`) deletes the wrapping submitter job when the
waiter classifies the submitter pod as `Unschedulable` before streaming; the
ray executor generation wired into the crate (`launch/src/executor/ray.rs`)
never deletes the job — its waiter treats an unschedulable pod as a warned
success. -/
theorem ray_unschedulable_deletion_by_generation (statuses : List PodStatus)
    (h : executionWaitForAndFollowPodLogs statuses = .error .Unschedulable) :
    rayExecutionBackendExecuteTail statuses = (true, .error .Unschedulable) ∧
    (rayExecutorExecuteTail statuses).1 = false := by
  constructor
  · unfold rayExecutionBackendExecuteTail
    rw [h]
  · rfl

/-- Counterexample for C4: on an unschedulable submitter pod, the waiter of
the wired-in ray executor classifies the pod as unschedulable before any
streaming, yet `RayExecutor::execute` deletes nothing. -/
theorem ray_executor_no_delete_on_unschedulable :
    unschedulableStatus.is_unschedulable = true ∧
    executorWaitForAndFollowPodLogs [unschedulableStatus] = .warnedUnschedulable ∧
    rayExecutorExecuteTail [unschedulableStatus] = (false, .warnedUnschedulable) := by
  refine ⟨rfl, rfl, rfl⟩

/-- Witness for C4 at a one-element unschedulable status trace. -/
theorem ray_unschedulable_deletion_by_generation_witness :
    executionWaitForAndFollowPodLogs [unschedulableStatus] = .error .Unschedulable ∧
    rayExecutionBackendExecuteTail [unschedulableStatus] =
      (true, .error .Unschedulable) :=
  ⟨by rfl,
    (ray_unschedulable_deletion_by_generation [unschedulableStatus] (by rfl)).1⟩

/-- Helper for C9: `ExecutionArgs::annotations` itself carries the required
entries. -/
theorem annotations_carry_launch_annotations (args : ExecutionArgsAnn) :
    carriesLaunchAnnotations args args.annotations := by
  unfold carriesLaunchAnnotations ExecutionArgsAnn.annotations
  cases args.tailscale_user_host with
  | none =>
    refine ⟨?_, ?_, ?_⟩ <;>
      simp [List.lookup, annotationVersion, annotationLaunchedByMachineUser,
        annotationLaunchedByTailscaleUser]
  | some v =>
    refine ⟨?_, ?_, ?_⟩ <;>
      simp [List.lookup, annotationVersion, annotationLaunchedByMachineUser,
        annotationLaunchedByTailscaleUser]

/-- **C9**: every workload resource the executors create — the single job (and
its pod template), the ray job (and its head, worker and submitter pod
templates) and the katib experiment — carries the version and
launched-by-machine-user annotations, and carries the
launched-by-tailscale-user annotation exactly when a tailscale principal is
present. -/
theorem executor_annotation_invariant (args : ExecutionArgsAnn) :
    carriesLaunchAnnotations args (job_spec args).metadata_annotations ∧
    carriesLaunchAnnotations args (job_spec args).template_annotations ∧
    carriesLaunchAnnotations args (ray_job_spec args).metadata_annotations ∧
    carriesLaunchAnnotations args (ray_job_spec args).head_template_annotations ∧
    carriesLaunchAnnotations args (ray_job_spec args).worker_template_annotations ∧
    carriesLaunchAnnotations args (ray_job_spec args).submitter_template_annotations ∧
    carriesLaunchAnnotations args (experiment args).metadata_annotations := by
  have key := annotations_carry_launch_annotations args
  exact ⟨key, key, key, key, key, key, key⟩

/-- Helper for C2: a byte at or above 0x80 has kind `VerbatimUtf8`. -/
theorem kind_of_high_byte (b : Nat) (hb : ¬b < 128) : kind b = .VerbatimUtf8 := by
  unfold kind
  rw [if_neg (show ¬b = 0x07 by omega), if_neg (show ¬b = 0x08 by omega),
    if_neg (show ¬b = 0x09 by omega), if_neg (show ¬b = 0x1b by omega),
    if_neg (show ¬b = 0x0c by omega), if_neg (show ¬b = 0x0a by omega),
    if_neg (show ¬b = 0x0d by omega), if_neg (show ¬b = 0x0b by omega),
    if_neg (show ¬b = 0x5c by omega), if_neg (show ¬b = 0x27 by omega),
    if_neg (show ¬_ by omega), if_neg (show ¬_ by omega), if_neg (show ¬_ by omega)]

set_option maxHeartbeats 1000000 in
/-- Helper for C2: per-byte agreement of the source's escape action with the
spec's escape table. -/
theorem ansiCByte_eq_specEscape (b : Nat) : ansiCByte b = specEscape b := by
  by_cases hb : b < 128
  · revert hb
    revert b
    decide
  · have hs : specEscape b = [b] := by
      unfold specEscape
      rw [if_neg (show ¬b = 0x07 by omega), if_neg (show ¬b = 0x08 by omega),
        if_neg (show ¬b = 0x09 by omega), if_neg (show ¬b = 0x1b by omega),
        if_neg (show ¬b = 0x0c by omega), if_neg (show ¬b = 0x0a by omega),
        if_neg (show ¬b = 0x0d by omega), if_neg (show ¬b = 0x0b by omega),
        if_neg (show ¬b = 92 by omega), if_neg (show ¬b = 39 by omega),
        if_neg (show ¬_ by omega)]
    rw [hs]
    unfold ansiCByte
    rw [kind_of_high_byte b hb]

set_option maxHeartbeats 1000000 in
/-- Helper for C2: per-byte agreement of the `is_inert` classification with the
spec's inert set. -/
theorem kind_is_inert_eq_specInert (b : Nat) : (kind b).is_inert = specInertByte b := by
  by_cases hb : b < 128
  · revert hb
    revert b
    decide
  · rw [kind_of_high_byte b hb]
    have : specInertByte b = false := by
      unfold specInertByte
      simp only [decide_eq_false_iff_not]
      omega
    rw [this]
    rfl

/-- Helper for C2: `argIsAllInert` agrees with the spec's all-inert test. -/
theorem argIsAllInert_eq_specAll (arg : List Nat) :
    argIsAllInert arg = arg.all specInertByte := by
  unfold argIsAllInert
  induction arg with
  | nil => rfl
  | cons b rest ih =>
    simp only [List.all_cons, ih, kind_is_inert_eq_specInert]

/-- Helper for C2: `encode_ansi_c` produces exactly the spec's `$'...'`
quotation. -/
theorem encode_ansi_c_eq_spec (arg : List Nat) :
    encode_ansi_c arg = [36, 39] ++ arg.flatMap specEscape ++ [39] := by
  unfold encode_ansi_c
  have h : arg.flatMap ansiCByte = arg.flatMap specEscape := by
    induction arg with
    | nil => rfl
    | cons b rest ih => simp [List.flatMap_cons, ih, ansiCByte_eq_specEscape]
  rw [h]
  rfl

/-- Helper for C2: each encoded token agrees with the spec's token encoding. -/
theorem quoteOne_eq_specQuoteToken (arg : List Nat) :
    quoteOne arg = specQuoteToken arg := by
  unfold quoteOne specQuoteToken
  rw [argIsAllInert_eq_specAll, encode_ansi_c_eq_spec]

/-- Helper for C2: the encoding of a token is never empty. -/
theorem quoteOne_ne_nil (arg : List Nat) : quoteOne arg ≠ [] := by
  unfold quoteOne
  split_ifs with h1 h2
  · simp
  · exact h1
  · simp [encode_ansi_c]

/-- Helper for C2: folding `quote_join_one_into` from a non-empty accumulator
appends a space before each encoded token. -/
theorem quote_join_foldl (args : List (List Nat)) (acc : List Nat) (hacc : acc ≠ []) :
    args.foldl quote_join_one_into acc =
      acc ++ args.flatMap (fun a => 32 :: quoteOne a) := by
  induction args generalizing acc with
  | nil => simp
  | cons a rest ih =>
    rw [List.foldl_cons]
    have hstep : quote_join_one_into acc a = acc ++ 32 :: quoteOne a := by
      unfold quote_join_one_into
      rw [if_neg hacc]
      simp
    rw [hstep, ih _ (by simp [hacc])]
    simp

/-- Helper for C2: `specJoin` as a flat map over the tail. -/
theorem specJoin_cons (t : List Nat) (rest : List (List Nat)) :
    specJoin (t :: rest) =
      specQuoteToken t ++ rest.flatMap (fun a => 32 :: specQuoteToken a) := by
  induction rest generalizing t with
  | nil => simp [specJoin]
  | cons r rs ih =>
    have hstep : specJoin (t :: r :: rs) = specQuoteToken t ++ 32 :: specJoin (r :: rs) :=
      rfl
    rw [hstep, ih r]
    simp

/-- **C2**: `quote_join` encodes every token exactly as the specification
states — `''` for the empty token, a token of inert bytes verbatim, and the
ANSI-C `$'...'` quotation with the stated byte-level escapes otherwise — and
joins the encoded tokens with single spaces. -/
theorem quote_join_matches_spec (args : List (List Nat)) :
    quote_join args = specJoin args := by
  cases args with
  | nil => rfl
  | cons a rest =>
    unfold quote_join
    rw [List.foldl_cons]
    have h1 : quote_join_one_into [] a = quoteOne a := by
      unfold quote_join_one_into
      simp
    rw [h1, quote_join_foldl rest (quoteOne a) (quoteOne_ne_nil a), specJoin_cons]
    simp [quoteOne_eq_specQuoteToken]

/-- Helper for C5/C6: a successful first-index search lands in bounds on a
byte satisfying the predicate. -/
theorem findFirstIdx_some {p : Nat → Bool} {l : List Nat} {i : Nat}
    (h : findFirstIdx p l = some i) :
    i < l.length ∧ p (l.getD i 0) = true := by
  induction l generalizing i with
  | nil => cases h
  | cons b rest ih =>
    unfold findFirstIdx at h
    by_cases hb : p b
    · rw [if_pos hb] at h
      cases h
      exact ⟨Nat.succ_pos _, hb⟩
    · rw [if_neg hb] at h
      obtain ⟨j, hj, rfl⟩ := Option.map_eq_some'.mp h
      obtain ⟨hlt, hp⟩ := ih hj
      exact ⟨Nat.succ_lt_succ hlt, hp⟩

/-- Helper for C5/C6: a successful last-index search lands in bounds, at or
after the start offset, on a byte satisfying the predicate. -/
theorem findLastIdxFrom_some {p : Nat → Bool} {input : List Nat} {s1 idx : Nat}
    (h : findLastIdxFrom p input s1 = some idx) :
    s1 ≤ idx ∧ idx < input.length ∧ p (input.getD idx 0) = true := by
  unfold findLastIdxFrom at h
  obtain ⟨j, hj, rfl⟩ := Option.map_eq_some'.mp h
  obtain ⟨hjlt, hjp⟩ := findFirstIdx_some hj
  rw [List.length_reverse] at hjlt
  have hmlen : (input.drop s1).length = input.length - s1 := List.length_drop s1 input
  have hs1 : s1 < input.length := by omega
  have hidx : s1 + ((input.drop s1).length - 1 - j) < input.length := by omega
  refine ⟨Nat.le_add_right _ _, hidx, ?_⟩
  have h1 : ((input.drop s1).reverse.getD j 0) =
      (input.drop s1).getD ((input.drop s1).length - 1 - j) 0 := by
    rw [List.getD_eq_getElem _ _ (by rw [List.length_reverse]; exact hjlt),
      List.getD_eq_getElem _ _ (by omega), List.getElem_reverse]
  have h2 : (input.drop s1).getD ((input.drop s1).length - 1 - j) 0 =
      input.getD (s1 + ((input.drop s1).length - 1 - j)) 0 := by
    rw [List.getD_eq_getElem _ _ (by omega), List.getD_eq_getElem _ _ hidx,
      List.getElem_drop]
  rw [h1, h2] at hjp
  exact hjp

/-- Helper for C5/C6: every byte emitted by the copy loop is in `[-a-z0-9]`. -/
theorem sanitizeMiddle_all_lnd (l : List Nat) (cd : Bool) :
    ∀ x ∈ sanitizeMiddle l cd, is_ascii_lowercase_numeric_or_dash x = true := by
  induction l generalizing cd with
  | nil => intro x hx; cases hx
  | cons b rest ih =>
    intro x hx
    unfold sanitizeMiddle at hx
    by_cases hb : is_ascii_lowercase_numeric_or_dash b
    · rw [if_pos hb, List.mem_cons] at hx
      rcases hx with rfl | hx
      · exact hb
      · exact ih _ x hx
    · rw [if_neg hb] at hx
      by_cases hcd : cd
      · rw [if_pos hcd, List.mem_cons] at hx
        rcases hx with rfl | hx
        · rfl
        · exact ih _ x hx
      · rw [if_neg hcd] at hx
        exact ih _ x hx

/-- Helper for C5: on dash-free input the copy loop never emits two
consecutive dashes, and right after a replacement dash it cannot emit a dash
first. -/
theorem sanitizeMiddle_chain_of_dash_free (l : List Nat)
    (h45 : ∀ x ∈ l, x ≠ 45) (cd : Bool) :
    (sanitizeMiddle l cd).Chain' (fun a b => ¬(a = 45 ∧ b = 45)) ∧
      (cd = false → ∀ y ∈ (sanitizeMiddle l cd).head?, y ≠ 45) := by
  induction l generalizing cd with
  | nil => exact ⟨List.chain'_nil, fun _ y hy => by cases hy⟩
  | cons b rest ih =>
    have hb45 : b ≠ 45 := h45 b (.head _)
    have hrest : ∀ x ∈ rest, x ≠ 45 := fun x hx => h45 x (.tail _ hx)
    unfold sanitizeMiddle
    by_cases hb : is_ascii_lowercase_numeric_or_dash b
    · rw [if_pos hb]
      refine ⟨List.chain'_cons'.mpr ⟨?_, (ih hrest _).1⟩, ?_⟩
      · intro y _ hc
        exact hb45 hc.1
      · intro _ y hy
        rw [List.head?_cons, Option.mem_some_iff] at hy
        omega
    · rw [if_neg hb]
      by_cases hcd : cd
      · rw [if_pos hcd]
        refine ⟨List.chain'_cons'.mpr ⟨?_, (ih hrest _).1⟩, ?_⟩
        · intro y hy hc
          exact (ih hrest false).2 rfl y hy hc.2
        · intro hfalse
          rw [hcd] at hfalse
          cases hfalse
      · rw [if_neg hcd]
        exact ih hrest cd

/-- Helper for C5: a list without the dash byte trivially has no two
consecutive dashes. -/
theorem chain_of_dash_free (l : List Nat) (h45 : ∀ x ∈ l, x ≠ 45) :
    l.Chain' (fun a b => ¬(a = 45 ∧ b = 45)) := by
  induction l with
  | nil => exact List.chain'_nil
  | cons b rest ih =>
    refine List.chain'_cons'.mpr ⟨?_, ih fun x hx => h45 x (.tail _ hx)⟩
    intro y _ hc
    exact h45 b (.head _) hc.1

/-- Helper for C5/C6: the last copied byte is in bounds and lowercase
alphanumeric. -/
theorem labelEnd_last_byte {input : List Nat} {start : Nat}
    (hstart : findFirstIdx isAsciiLowercase input = some start) :
    labelEnd input start - 1 < input.length ∧
    start ≤ labelEnd input start - 1 ∧
    is_ascii_lowercase_numeric (input.getD (labelEnd input start - 1) 0) = true := by
  obtain ⟨hlt, hp⟩ := findFirstIdx_some hstart
  unfold labelEnd
  cases hfl : findLastIdxFrom is_ascii_lowercase_numeric input (start + 1) with
  | none =>
    simp only [Option.getD_none, Nat.add_sub_cancel]
    exact ⟨hlt, Nat.le_refl _,
      by simp only [is_ascii_lowercase_numeric, hp, Bool.true_or]⟩
  | some idx =>
    obtain ⟨hge, hlt', hp'⟩ := findLastIdxFrom_some hfl
    simp only [Option.getD_some, Nat.add_sub_cancel]
    exact ⟨hlt', by omega, hp'⟩

/-- Helper for C5: an element of the tail-slice `l[1..1+k)` is an element of
the slice `l[0..k+1)`. -/
theorem mem_take_of_mem_drop_one_take {l : List Nat} {k : Nat} {x : Nat}
    (hx : x ∈ (l.drop 1).take k) : x ∈ l.take (k + 1) := by
  cases l with
  | nil => simp at hx
  | cons a t =>
    simp only [List.drop_succ_cons, List.drop_zero] at hx
    rw [List.take_succ_cons]
    exact List.mem_cons_of_mem _ hx

/-- **C5** (amended): when the copied region `input[start..end)` contains no
literal dash byte, the returned label never contains two dashes in a row — a
non-`[a-z0-9-]` byte is mapped to `'-'` only when the previously emitted byte
is not already a dash, and is dropped otherwise.  Literal dashes of the copied
region are emitted verbatim, so inputs that already contain consecutive dashes
there keep them (see the counterexample). -/
theorem sanitize_no_double_dash_of_dash_free (input out : List Nat) (start : Nat)
    (hstart : findFirstIdx isAsciiLowercase input = some start)
    (h45 : ∀ x ∈ (input.drop start).take (labelEnd input start - start), x ≠ 45)
    (hout : to_rfc_1035_label_lossy input = some out) :
    out.Chain' (fun a b => ¬(a = 45 ∧ b = 45)) := by
  simp only [to_rfc_1035_label_lossy, hstart] at hout
  by_cases hlab :
      is_rfc_1035_label ((input.drop start).take (labelEnd input start - start))
  · rw [if_pos hlab] at hout
    obtain rfl : (input.drop start).take (labelEnd input start - start) = out := by
      cases hout; rfl
    exact chain_of_dash_free _ h45
  · rw [if_neg hlab] at hout
    obtain rfl :
        (input.getD start 0) ::
          (sanitizeMiddle
            ((input.drop (start + 1)).take
              (labelEnd input start - 1 - (start + 1))) true ++
            [input.getD (labelEnd input start - 1) 0]) = out := by
      cases hout; rfl
    obtain ⟨hstartlt, hp⟩ := findFirstIdx_some hstart
    obtain ⟨hlast_lt, hlast_ge, hlast_p⟩ := labelEnd_last_byte hstart
    have hb0 : input.getD start 0 ≠ 45 := by
      intro hc
      rw [hc] at hp
      exact absurd hp (by decide)
    have hblast : input.getD (labelEnd input start - 1) 0 ≠ 45 := by
      intro hc
      rw [hc] at hlast_p
      exact absurd hlast_p (by decide)
    have hpos : 1 ≤ labelEnd input start := by
      unfold labelEnd
      omega
    have hmid : ∀ x ∈ (input.drop (start + 1)).take
        (labelEnd input start - 1 - (start + 1)), x ≠ 45 := by
      intro x hx
      apply h45
      rw [(List.drop_drop 1 start input).symm] at hx
      have hx1 := mem_take_of_mem_drop_one_take hx
      have hle : labelEnd input start - 1 - (start + 1) + 1 ≤
          labelEnd input start - start := by omega
      have heq : (input.drop start).take (labelEnd input start - 1 - (start + 1) + 1) =
          ((input.drop start).take (labelEnd input start - start)).take
            (labelEnd input start - 1 - (start + 1) + 1) := by
        rw [List.take_take, min_eq_left hle]
      rw [heq] at hx1
      exact List.take_subset _ _ hx1
    refine List.chain'_cons'.mpr ⟨?_, ?_⟩
    · intro y _ hc
      exact hb0 hc.1
    · refine List.chain'_append.mpr
        ⟨(sanitizeMiddle_chain_of_dash_free _ hmid true).1,
          List.chain'_singleton _, ?_⟩
      intro x _ y hy hc
      rw [List.head?_cons, Option.mem_some_iff] at hy
      exact hblast (hy ▸ hc.2)

/-- Counterexample for C5: the input `"a--b"` already is an RFC 1035 label, so
the sanitizer returns it unchanged — including its two consecutive dashes. -/
theorem sanitize_double_dash_counterexample :
    to_rfc_1035_label_lossy [97, 45, 45, 98] = some [97, 45, 45, 98] ∧
    ¬ ([97, 45, 45, 98] : List Nat).Chain' (fun a b => ¬(a = 45 ∧ b = 45)) := by
  constructor
  · rfl
  · intro h
    exact (List.chain'_cons.mp (List.chain'_cons.mp h).2).1 ⟨rfl, rfl⟩

/-- Witness for C5 at the input `"-a.c"`, whose copied region `"a.c"` is
dash-free although the input itself is not. -/
theorem sanitize_no_double_dash_witness :
    (findFirstIdx isAsciiLowercase [45, 97, 46, 99] = some 1 ∧
     (∀ x ∈ (([45, 97, 46, 99] : List Nat).drop 1).take (labelEnd [45, 97, 46, 99] 1 - 1),
        x ≠ 45) ∧
     to_rfc_1035_label_lossy [45, 97, 46, 99] = some [97, 45, 99]) ∧
    ([97, 45, 99] : List Nat).Chain' (fun a b => ¬(a = 45 ∧ b = 45)) :=
  ⟨⟨by rfl, by decide, by rfl⟩,
    sanitize_no_double_dash_of_dash_free [45, 97, 46, 99] [97, 45, 99] 1
      (by rfl) (by decide) (by rfl)⟩

/-- Helper for C6: `labelTail` holds for a run of `[-a-z0-9]` bytes followed
by one `[a-z0-9]` byte. -/
theorem labelTail_cons₂ (x z : Nat) (zs : List Nat) :
    labelTail (x :: z :: zs) =
      (is_ascii_lowercase_numeric_or_dash x && labelTail (z :: zs)) := rfl

/-- Helper for C6: `labelTail` holds for a run of `[-a-z0-9]` bytes followed
by one `[a-z0-9]` byte. -/
theorem labelTail_append_singleton (l : List Nat) (c : Nat)
    (hl : ∀ x ∈ l, is_ascii_lowercase_numeric_or_dash x = true)
    (hc : is_ascii_lowercase_numeric c = true) :
    labelTail (l ++ [c]) = true := by
  induction l with
  | nil => exact hc
  | cons x xs ih =>
    have hx : is_ascii_lowercase_numeric_or_dash x = true := hl x (.head _)
    have hxs : labelTail (xs ++ [c]) = true := ih fun y hy => hl y (.tail _ hy)
    cases xs with
    | nil =>
      simp only [List.nil_append] at hxs
      simp only [List.cons_append, List.nil_append]
      rw [labelTail_cons₂, hx, hxs]
      rfl
    | cons z zs =>
      simp only [List.cons_append] at hxs
      simp only [List.cons_append]
      rw [labelTail_cons₂, hx, hxs]
      rfl

/-- Helper for C6: the last byte of a `labelTail`-satisfying run is lowercase
alphanumeric. -/
theorem labelTail_last (l : List Nat) (c : Nat)
    (h : labelTail (l ++ [c]) = true) : is_ascii_lowercase_numeric c = true := by
  induction l with
  | nil => exact h
  | cons x xs ih =>
    cases xs with
    | nil =>
      simp only [List.cons_append, List.nil_append] at h
      rw [labelTail_cons₂, Bool.and_eq_true] at h
      exact ih (by simpa using h.2)
    | cons z zs =>
      simp only [List.cons_append] at h
      rw [labelTail_cons₂, Bool.and_eq_true] at h
      exact ih (by simp only [List.cons_append]; exact h.2)

/-- Helper for C6: `is_rfc_1035_label` on a list with at least two elements. -/
theorem is_rfc_1035_label_cons₂ (b z : Nat) (zs : List Nat) :
    is_rfc_1035_label (b :: z :: zs) =
      (isAsciiLowercase b && labelTail (z :: zs)) := rfl

/-- Helper for C6: the head of a label is lowercase alphabetic. -/
theorem is_rfc_1035_label_head {b : Nat} {rest : List Nat}
    (h : is_rfc_1035_label (b :: rest) = true) : isAsciiLowercase b = true := by
  cases rest with
  | nil => exact h
  | cons z zs =>
    rw [is_rfc_1035_label_cons₂, Bool.and_eq_true] at h
    exact h.1

/-- Helper for C6: a returned label satisfies `is_rfc_1035_label`. -/
theorem to_label_wellformed {input out : List Nat}
    (hout : to_rfc_1035_label_lossy input = some out) :
    is_rfc_1035_label out = true := by
  unfold to_rfc_1035_label_lossy at hout
  split at hout
  · cases hout
  next start hstart =>
    by_cases hlab :
        is_rfc_1035_label ((input.drop start).take (labelEnd input start - start))
    · rw [if_pos hlab] at hout
      obtain rfl : (input.drop start).take (labelEnd input start - start) = out := by
        cases hout; rfl
      exact hlab
    · rw [if_neg hlab] at hout
      obtain rfl :
          (input.getD start 0) ::
            (sanitizeMiddle
              ((input.drop (start + 1)).take
                (labelEnd input start - 1 - (start + 1))) true ++
              [input.getD (labelEnd input start - 1) 0]) = out := by
        cases hout; rfl
      obtain ⟨hstartlt, hp⟩ := findFirstIdx_some hstart
      obtain ⟨hlast_lt, hlast_ge, hlast_p⟩ := labelEnd_last_byte hstart
      have htail : labelTail
          (sanitizeMiddle
            ((input.drop (start + 1)).take
              (labelEnd input start - 1 - (start + 1))) true ++
            [input.getD (labelEnd input start - 1) 0]) = true :=
        labelTail_append_singleton _ _ (sanitizeMiddle_all_lnd _ _) hlast_p
      cases hmid : sanitizeMiddle
          ((input.drop (start + 1)).take
            (labelEnd input start - 1 - (start + 1))) true with
      | nil =>
        rw [hmid] at htail
        rw [List.nil_append] at htail
        rw [List.nil_append, is_rfc_1035_label_cons₂, hp, htail]
        rfl
      | cons m ms =>
        rw [hmid] at htail
        rw [List.cons_append] at htail
        rw [List.cons_append, is_rfc_1035_label_cons₂, hp, htail]
        rfl

/-- Helper for C6: the sanitizer returns a valid label unchanged. -/
theorem to_label_of_label (v : List Nat) (hv : is_rfc_1035_label v = true) :
    to_rfc_1035_label_lossy v = some v := by
  cases v with
  | nil => cases hv
  | cons b rest =>
    have hb : isAsciiLowercase b = true := is_rfc_1035_label_head hv
    have hfirst : findFirstIdx isAsciiLowercase (b :: rest) = some 0 := by
      unfold findFirstIdx
      rw [if_pos hb]
    have hend : labelEnd (b :: rest) 0 = (b :: rest).length := by
      rcases List.eq_nil_or_concat rest with rfl | ⟨l', x, rfl⟩
      · unfold labelEnd findLastIdxFrom
        rfl
      · have hx : is_ascii_lowercase_numeric x = true := by
          apply labelTail_last l' x
          cases l' with
          | nil =>
            simp only [List.concat_eq_append, List.nil_append] at hv ⊢
            rw [is_rfc_1035_label_cons₂, Bool.and_eq_true] at hv
            exact hv.2
          | cons z zs =>
            simp only [List.concat_eq_append, List.cons_append] at hv ⊢
            rw [is_rfc_1035_label_cons₂, Bool.and_eq_true] at hv
            exact hv.2
        unfold labelEnd findLastIdxFrom
        simp only [List.concat_eq_append, List.drop_succ_cons, List.drop_zero,
          List.reverse_append, List.reverse_cons, List.reverse_nil,
          List.nil_append, List.singleton_append]
        unfold findFirstIdx
        rw [if_pos hx]
        simp only [Option.map_some', Option.getD_some, List.length_append,
          List.length_cons, List.length_nil]
        omega
    simp only [to_rfc_1035_label_lossy, hfirst]
    rw [hend]
    simp only [List.drop_zero, Nat.sub_zero, List.take_length]
    rw [if_pos hv]

/-- **C6**: the sanitizer is idempotent on its successes, and every returned
label matches the RFC 1035 label shape `^[a-z]([-a-z0-9]*[a-z0-9])?$`. -/
theorem sanitize_idempotent_and_wellformed (input out : List Nat)
    (hout : to_rfc_1035_label_lossy input = some out) :
    to_rfc_1035_label_lossy out = some out ∧ is_rfc_1035_label out = true := by
  have hw := to_label_wellformed hout
  exact ⟨to_label_of_label out hw, hw⟩

/-- Witness for C6 at the input `"-a.c."`. -/
theorem sanitize_idempotent_and_wellformed_witness :
    to_rfc_1035_label_lossy [45, 97, 46, 99, 46] = some [97, 45, 99] ∧
    to_rfc_1035_label_lossy [97, 45, 99] = some [97, 45, 99] ∧
    is_rfc_1035_label [97, 45, 99] = true :=
  ⟨by rfl,
    (sanitize_idempotent_and_wellformed [45, 97, 46, 99, 46] [97, 45, 99] (by rfl)).1,
    (sanitize_idempotent_and_wellformed [45, 97, 46, 99, 46] [97, 45, 99] (by rfl)).2⟩

end Launch
